import Mathlib

/-!
Verification of the adaptive parameter search and evaluation-depth probing
engine of a cross-library FHE benchmark repository.

The homomorphic backend (SEAL / HElib) is treated as an external oracle: the
decoded per-slot vector after `k` chained operations is an arbitrary function
`dec : Nat → List Nat`, and the backend noise budget after `k` operations is
an arbitrary function `noise : Nat → Int`.  Everything the drivers compute on
top of these oracles (the exact-arithmetic expectation, the comparison loops,
the depth-probe while loops, the candidate-parameter first-fit search, the
chunking arithmetic, the grid driver and the string dispatch) is embedded
below, translated directly from the C++ sources.
-/

/-- `2 ^ 64`, the wrap-around modulus of the C++ `uint64_t` arithmetic used
by the expected-value computations. -/
def twoPow64 : Nat := 2 ^ 64

/-- Expected per-slot value for the additive chain, from
`depth_cipher+cipher.cpp` line 92:
`uint64_t expected = (initial_vec[i] * (operation_count + 1)) % t;`.
The product is `uint64_t` arithmetic, hence the reduction modulo `2 ^ 64`. -/
def expectedAdd (v t k : Nat) : Nat := (v * (k + 1)) % twoPow64 % t

/-- The per-step verification of `test_cipher_plus_cipher_operations`
(lines 84-97): decrypt, decode, and compare every real data slot
(`i < initial_vec.size()`) of the decoded vector against the exact
expectation.  `dec k` is the decoded vector after `k` additions. -/
def stepMatchesAdd (initial : List Nat) (t : Nat) (dec : Nat → List Nat)
    (k : Nat) : Bool :=
  (List.range initial.length).all fun i =>
    (dec k).getD i 0 == expectedAdd (initial.getD i 0) t k

/-- The `while (operation_count < cap)` loop shared by the depth probes:
starting from `count` operations already applied, apply one more operation
(incrementing the count by exactly one), run the per-step check, break on
the first failing check returning the current count, and fall out of the
loop once the count reaches `cap`.  `fuel` is a structural bound on the
number of iterations; it is always instantiated large enough to be
inexhaustible. -/
def probeLoop (check : Nat → Bool) (cap : Nat) : Nat → Nat → Nat
  | 0, count => count
  | fuel + 1, count =>
    if count < cap then
      if check (count + 1) then probeLoop check cap fuel (count + 1)
      else count + 1
    else count

/-- `test_cipher_plus_cipher_operations` (depth_cipher+cipher.cpp lines
71-114): the first addition is applied before the loop (`operation_count =
1`) and is never verified; the loop then runs with safety cap 16384 and
returns the final `operation_count`. -/
def probeAdd (initial : List Nat) (t : Nat) (dec : Nat → List Nat) : Nat :=
  probeLoop (stepMatchesAdd initial t dec) 16384 16384 1

theorem probeLoop_le (check : Nat → Bool) (cap : Nat) :
    ∀ fuel count, count ≤ cap → probeLoop check cap fuel count ≤ cap := by
  intro fuel
  induction fuel with
  | zero => intro count h; exact h
  | succ fuel ih =>
    intro count h
    by_cases hlt : count < cap
    · by_cases hc : check (count + 1) = true
      · simpa [probeLoop, hlt, hc] using ih (count + 1) hlt
      · simp only [probeLoop, if_pos hlt, hc, if_false]
        exact hlt
    · simpa [probeLoop, hlt] using h

theorem probeLoop_allPass (check : Nat → Bool) (cap : Nat) :
    ∀ fuel count, count ≤ cap → cap ≤ count + fuel →
      (∀ k, check k = true) → probeLoop check cap fuel count = cap := by
  intro fuel
  induction fuel with
  | zero => intro count h1 h2 _; simp [probeLoop]; omega
  | succ fuel ih =>
    intro count h1 h2 hall
    by_cases hlt : count < cap
    · simp only [probeLoop, if_pos hlt, hall (count + 1), if_true]
      exact ih (count + 1) hlt (by omega) hall
    · simp only [probeLoop, if_neg hlt]
      omega

theorem probeLoop_firstFail (check : Nat → Bool) (cap : Nat) :
    ∀ fuel count K, count < K → K ≤ cap → K ≤ count + fuel →
      (∀ k, count < k → k < K → check k = true) → check K = false →
      probeLoop check cap fuel count = K := by
  intro fuel
  induction fuel with
  | zero => intro count K h1 _ h3 _ _; omega
  | succ fuel ih =>
    intro count K h1 h2 h3 hpass hfail
    have hlt : count < cap := by omega
    by_cases hK : count + 1 = K
    · have hc : check (count + 1) = false := hK ▸ hfail
      simp only [probeLoop, if_pos hlt, hc, if_false]
      exact hK
    · have hc : check (count + 1) = true := hpass (count + 1) (by omega) (by omega)
      simp only [probeLoop, if_pos hlt, hc, if_true]
      exact ih (count + 1) K (by omega) h2 (by omega)
        (fun k hk1 hk2 => hpass k (by omega) hk2) hfail

theorem probeLoop_passed (check : Nat → Bool) (cap : Nat) :
    ∀ fuel count k, count < k → k < probeLoop check cap fuel count →
      check k = true := by
  intro fuel
  induction fuel with
  | zero => intro count k h1 h2; simp [probeLoop] at h2; omega
  | succ fuel ih =>
    intro count k h1 h2
    by_cases hlt : count < cap
    · by_cases hc : check (count + 1) = true
      · rw [probeLoop, if_pos hlt, if_pos hc] at h2
        by_cases hk : k = count + 1
        · exact hk ▸ hc
        · exact ih (count + 1) k (by omega) h2
      · rw [probeLoop, if_pos hlt, if_neg hc] at h2
        omega
    · rw [probeLoop, if_neg hlt] at h2
      omega

/-- Backend decode oracle that tracks the exact additive expectation for a
vector of sixteen 2s under modulus 65537 up to step 2 and diverges at step
3.  Used to exercise the mismatch path of the additive depth probe. -/
def decFaulty3 : Nat → List Nat := fun k =>
  if k = 3 then List.replicate 16 7
  else List.replicate 16 ((2 * (k + 1)) % 65537)

/-- Backend decode oracle that diverges at the very first verified step
(operation count 2). -/
def decFaulty2 : Nat → List Nat := fun k =>
  if k = 2 then List.replicate 16 9
  else List.replicate 16 ((2 * (k + 1)) % 65537)

/-- Backend decode oracle that matches the additive expectation at every
step strictly below the safety cap and diverges exactly at step 16384. -/
def decCapEdge : Nat → List Nat := fun k =>
  if k = 16384 then [1] else [expectedAdd 2 0 k]

/-- Claim C1, counterexample.  The claim asserts the decrypted value matches
`(v * (k+1)) mod t` for every `k` from 1 up to the reported
`max_operations`.  With a backend whose decode diverges at step 3, the
probe reports `max_operations = 3`, and at `k = 3` — the reported maximum
itself — the decrypted slot value does not equal `(2 * (3+1)) mod 65537`:
the code returns the detecting step, at which the comparison has already
failed. -/
theorem probeAdd_final_step_violates_P1 :
    probeAdd (List.replicate 16 2) 65537 decFaulty3 = 3 ∧
      ¬ (decFaulty3 3).getD 0 0 = (2 * (3 + 1)) % 65537 := by decide

/-- Claim C1, amended.  For every step `k` the additive probe actually
verified — `2 ≤ k < max_operations` — the decoded value at every real data
slot equals `(v * (k+1)) mod t` exactly (integer equality, padded slots
beyond `initial.length` excluded).  Step 1 is applied before the loop and
never verified, and the step at `max_operations` itself is the one that
failed when termination was by mismatch. -/
theorem probeAdd_verified_steps_match_oracle (initial : List Nat) (t : Nat)
    (dec : Nat → List Nat) (k i : Nat)
    (hk1 : 1 < k) (hk2 : k < probeAdd initial t dec)
    (hi : i < initial.length)
    (hsmall : initial.getD i 0 * (k + 1) < twoPow64) :
    (dec k).getD i 0 = (initial.getD i 0 * (k + 1)) % t := by
  have hstep : stepMatchesAdd initial t dec k = true :=
    probeLoop_passed _ 16384 16384 1 k hk1 hk2
  simp only [stepMatchesAdd, List.all_eq_true, List.mem_range, beq_iff_eq] at hstep
  rw [hstep i hi, expectedAdd, Nat.mod_eq_of_lt hsmall]

/-- Claim C1, witness: the amended theorem evaluated at the concrete faulty
backend, at verified step 2. -/
theorem probeAdd_verified_steps_match_oracle_witness :
    (decFaulty3 2).getD 0 0 = ((List.replicate 16 2).getD 0 0 * (2 + 1)) % 65537 :=
  probeAdd_verified_steps_match_oracle (List.replicate 16 2) 65537 decFaulty3 2 0
    (by decide) (by decide) (by decide) (by decide)

/-- Claim C2, counterexample.  With a backend whose decode first diverges at
operation count 2, the additive probe returns 2 — the step at which the
failure was detected — and not 1, the last successful step the claim (and
spec §4.4 step 3) says it should report. -/
theorem probeAdd_reports_detection_step_cex :
    probeAdd (List.replicate 16 2) 65537 decFaulty2 = 2 ∧
      ¬ probeAdd (List.replicate 16 2) 65537 decFaulty2 = 1 := by decide

/-- Claim C2, amended.  When the additive depth probe detects the first
mismatch at operation count `K`, it stops and reports `K` itself — the
detection step — as `max_operations`, not `K - 1`. -/
theorem probeAdd_mismatch_reports_detection_step (initial : List Nat) (t : Nat)
    (dec : Nat → List Nat) (K : Nat) (h1 : 1 < K) (h2 : K ≤ 16384)
    (hpass : ∀ k, 1 < k → k < K → stepMatchesAdd initial t dec k = true)
    (hfail : stepMatchesAdd initial t dec K = false) :
    probeAdd initial t dec = K :=
  probeLoop_firstFail _ 16384 16384 1 K h1 h2 (by omega) hpass hfail

/-- Claim C2, witness: the amended theorem evaluated at a backend that
mismatches at the first verified step. -/
theorem probeAdd_mismatch_reports_detection_step_witness :
    probeAdd [5] 100 (fun k => if k = 2 then [0] else [expectedAdd 5 100 k]) = 2 :=
  probeAdd_mismatch_reports_detection_step [5] 100
    (fun k => if k = 2 then [0] else [expectedAdd 5 100 k]) 2
    (by decide) (by decide) (by intro k hk1 hk2; omega) (by decide)

/-- Claim C8.  The additive depth probe's result never exceeds the safety
cap 16384 (each loop iteration applies exactly one homomorphic operation
and increments the count by exactly one, so the count can only reach the
cap one step at a time), and when every per-step check passes the probe
stops at the cap and reports exactly 16384. -/
theorem probeAdd_cap_invariant (initial : List Nat) (t : Nat)
    (dec : Nat → List Nat) :
    probeAdd initial t dec ≤ 16384 ∧
      ((∀ k, stepMatchesAdd initial t dec k = true) →
        probeAdd initial t dec = 16384) :=
  ⟨probeLoop_le _ 16384 16384 1 (by omega),
   fun hall => probeLoop_allPass _ 16384 16384 1 (by omega) (by omega) hall⟩

/-- Claim C8, witness: with an empty real-data prefix every check passes
vacuously, and the probe reports exactly the cap. -/
theorem probeAdd_cap_invariant_witness :
    probeAdd [] 0 (fun _ => []) ≤ 16384 ∧
      probeAdd [] 0 (fun _ => []) = 16384 :=
  ⟨(probeAdd_cap_invariant [] 0 (fun _ => [])).1,
   (probeAdd_cap_invariant [] 0 (fun _ => [])).2 (fun _ => rfl)⟩

/-- Claim C9.  A mismatch detected exactly at the step at which the
operation count reaches the safety cap 16384 makes the probe return 16384 —
the same value returned when every check passes and the cap is reached
cleanly — so the two terminations are indistinguishable in the returned
`max_operations`. -/
theorem probeAdd_mismatch_at_cap_indistinguishable
    (initial : List Nat) (t : Nat) (dec : Nat → List Nat)
    (initial2 : List Nat) (t2 : Nat) (dec2 : Nat → List Nat)
    (hpass : ∀ k, 1 < k → k < 16384 → stepMatchesAdd initial t dec k = true)
    (hfail : stepMatchesAdd initial t dec 16384 = false)
    (hall : ∀ k, stepMatchesAdd initial2 t2 dec2 k = true) :
    probeAdd initial t dec = 16384 ∧ probeAdd initial2 t2 dec2 = 16384 :=
  ⟨probeLoop_firstFail _ 16384 16384 1 16384 (by omega) (Nat.le_refl _)
      (by omega) hpass hfail,
   probeLoop_allPass _ 16384 16384 1 (by omega) (by omega) hall⟩

/-- Claim C9, witness: a backend faithful up to step 16383 that diverges
exactly at step 16384 yields the same report as a backend that never
diverges. -/
theorem probeAdd_mismatch_at_cap_indistinguishable_witness :
    probeAdd [2] 0 decCapEdge = 16384 ∧
      probeAdd [] 0 (fun _ => []) = 16384 :=
  probeAdd_mismatch_at_cap_indistinguishable [2] 0 decCapEdge [] 0 (fun _ => [])
    (by intro k h1 h2
        have hne : k ≠ 16384 := by omega
        simp [stepMatchesAdd, decCapEdge, hne])
    (by decide) (fun _ => rfl)

/-- The repeated modular-multiplication loop computing the multiplicative
expectation, from `depth_cipherxcipher.cpp` lines 120-123:
`uint64_t expected = 1; for (j = 0; j < operation_count + 1; j++)
expected = (expected * initial_vec[i]) % t;`.  `expectedMulLoop v t n` is
the value after `n` iterations; the probe uses `n = operation_count + 1`.
The product is `uint64_t` arithmetic, hence the reduction modulo `2^64`. -/
def expectedMulLoop (v t : Nat) : Nat → Nat
  | 0 => 1
  | j + 1 => expectedMulLoop v t j * v % twoPow64 % t

/-- The per-step verification of `test_cipher_times_cipher_operations`
(lines 111-128): compare every real data slot of the decoded vector
against the repeated-modular-multiplication expectation. -/
def stepMatchesMul (initial : List Nat) (t : Nat) (dec : Nat → List Nat)
    (k : Nat) : Bool :=
  (List.range initial.length).all fun i =>
    (dec k).getD i 0 == expectedMulLoop (initial.getD i 0) t (k + 1)

/-- `test_cipher_times_cipher_operations` (depth_cipherxcipher.cpp lines
103-140): the count starts at 0, every loop iteration multiplies,
relinearizes, increments the count, and verifies; safety cap 16384. -/
def probeMul (initial : List Nat) (t : Nat) (dec : Nat → List Nat) : Nat :=
  probeLoop (stepMatchesMul initial t dec) 16384 16384 0

theorem expectedMulLoop_bounds (v t : Nat) (ht : 0 < t) (ht2 : t ≤ 2 ^ 32)
    (hv : v < 2 ^ 32) :
    ∀ n, 1 ≤ n → expectedMulLoop v t n = v ^ n % t ∧ expectedMulLoop v t n < t := by
  intro n
  induction n with
  | zero => intro h; omega
  | succ n ih =>
    intro _
    by_cases hn : 1 ≤ n
    · obtain ⟨heq, hlt⟩ := ih hn
      have hsmall : expectedMulLoop v t n * v < twoPow64 := by
        have h1 : expectedMulLoop v t n * v < 2 ^ 32 * 2 ^ 32 :=
          Nat.mul_lt_mul_of_lt_of_le (by omega) (by omega) (by positivity)
        calc expectedMulLoop v t n * v < 2 ^ 32 * 2 ^ 32 := h1
          _ ≤ twoPow64 := by norm_num [twoPow64]
      constructor
      · rw [expectedMulLoop, Nat.mod_eq_of_lt hsmall, heq, Nat.mod_mul_mod,
          pow_succ]
      · exact Nat.mod_lt _ ht
    · have hn0 : n = 0 := by omega
      subst hn0
      have hsmall : (1 : Nat) * v < twoPow64 := by
        have : v < twoPow64 := by
          calc v < 2 ^ 32 := hv
            _ ≤ twoPow64 := by norm_num [twoPow64]
        omega
      constructor
      · show 1 * v % twoPow64 % t = v ^ 1 % t
        rw [Nat.mod_eq_of_lt hsmall, one_mul, pow_one]
      · show 1 * v % twoPow64 % t < t
        exact Nat.mod_lt _ ht

/-- Claim C4.  The repeated modular-multiplication loop of the
multiplicative depth probe computes exactly `v ^ n mod t` by exact integer
modular arithmetic (the `uint64_t` products never wrap for moduli and
slot values below `2^32`), and a step at operation count `k` is accepted
exactly when every real data slot decodes to
`expectedMulLoop v t (k+1) = v^(k+1) mod t`. -/
theorem mul_oracle_is_modular_power (v t n : Nat) (initial : List Nat)
    (dec : Nat → List Nat) (k : Nat)
    (hn : 1 ≤ n) (ht : 0 < t) (ht2 : t ≤ 2 ^ 32) (hv : v < 2 ^ 32) :
    expectedMulLoop v t n = v ^ n % t ∧
      (stepMatchesMul initial t dec k = true ↔
        ∀ i, i < initial.length →
          (dec k).getD i 0 = expectedMulLoop (initial.getD i 0) t (k + 1)) := by
  constructor
  · exact (expectedMulLoop_bounds v t ht ht2 hv n hn).1
  · simp only [stepMatchesMul, List.all_eq_true, List.mem_range, beq_iff_eq]

/-- Claim C4, witness: with `v = 2`, `t = 40961`, after two multiplications
the oracle value is `2 ^ 2 mod 40961`, and the acceptance condition for a
run over sixteen slots of 2s with a faithful backend holds slot by slot. -/
theorem mul_oracle_is_modular_power_witness :
    expectedMulLoop 2 40961 2 = 2 ^ 2 % 40961 ∧
      (stepMatchesMul (List.replicate 16 2) 40961
          (fun k => List.replicate 16 (expectedMulLoop 2 40961 (k + 1))) 1 = true ↔
        ∀ i, i < (List.replicate 16 2).length →
          ((fun k => List.replicate 16 (expectedMulLoop 2 40961 (k + 1))) 1).getD i 0 =
            expectedMulLoop ((List.replicate 16 2).getD i 0) 40961 (1 + 1)) :=
  mul_oracle_is_modular_power 2 40961 2 (List.replicate 16 2)
    (fun k => List.replicate 16 (expectedMulLoop 2 40961 (k + 1))) 1
    (by decide) (by decide) (by norm_num) (by norm_num)

/-- A candidate parameter set tried by `setup_context` in `same.cpp`: a
coefficient-modulus bit-size shape plus a plaintext modulus. -/
structure Candidate where
  coeffBits : List Nat
  plainMod : Nat
deriving DecidableEq

/-- The plaintext-modulus options of `same.cpp` line 82. -/
def plain_modulus_options : List Nat := [65537, 12289, 40961, 114689]

/-- The per-ring-dimension coefficient-modulus shapes of `same.cpp` lines
84-119. -/
def coeff_modulus_options (d : Nat) : List (List Nat) :=
  if d = 1024 then [[27, 27], [30, 30], [27, 27, 27], [20, 20]]
  else if d = 2048 then [[36, 36, 37], [30, 30, 30], [36, 36], [27, 27, 27]]
  else if d = 4096 then [[36, 36, 37], [43, 43, 44], [36, 36]]
  else if d = 8192 then [[43, 43, 44, 44], [50, 50, 50, 50]]
  else if d = 16384 then [[43, 43, 44, 44], [50, 50, 50, 50]]
  else if d = 32768 then [[50, 50, 50, 50, 50], [60, 60, 60, 60, 60]]
  else []

/-- The nested candidate loop of `setup_context` (same.cpp lines 122-141)
linearized in its execution order: for each coefficient shape, each
plaintext modulus in turn. -/
def productCandidates : List (List Nat) → List Candidate
  | [] => []
  | c :: rest => (plain_modulus_options.map fun p => ⟨c, p⟩) ++ productCandidates rest

/-- The ordered candidate list tried for ring dimension `d`. -/
def candidates (d : Nat) : List Candidate :=
  productCandidates (coeff_modulus_options d)

/-- First-fit iteration of `setup_context`: attempt candidates in order
(`try_parameters`, abstracted as the backend success predicate `ok`, covers
context construction, `parameters_set()`, and creation of every key and
helper object), stop at the first success.  Returns the list of candidates
actually attempted together with the accepted candidate, if any. -/
def selectFirstFit (ok : Candidate → Bool) : List Candidate → List Candidate × Option Candidate
  | [] => ([], none)
  | c :: rest =>
    if ok c then ([c], some c)
    else
      let r := selectFirstFit ok rest
      (c :: r.1, r.2)

/-- `setup_context` (same.cpp lines 75-182): first-fit over the candidate
list; only when every candidate fails does the trailing batching fallback
(lines 144-178) run, abstracted here as `fallback`. -/
def setup_context (ok : Candidate → Bool) (d : Nat)
    (fallback : Option Candidate) : Option Candidate :=
  match (selectFirstFit ok (candidates d)).2 with
  | some c => some c
  | none => fallback

/-- Claim C3.  If candidate `i` (0-indexed) is the first candidate in the
ordered list for which the backend attempt succeeds, the selector returns
exactly candidate `i` and the attempted candidates are precisely the first
`i + 1` entries of the list — candidate `i + 1` and all later candidates
are never attempted. -/
theorem selector_first_fit (ok : Candidate → Bool) (cs : List Candidate)
    (i : Nat) (hi : i < cs.length)
    (hfirst : ∀ j, j < i → ok (cs.getD j ⟨[], 0⟩) = false)
    (hok : ok (cs.getD i ⟨[], 0⟩) = true) :
    (selectFirstFit ok cs).2 = some (cs.getD i ⟨[], 0⟩) ∧
      (selectFirstFit ok cs).1 = cs.take (i + 1) := by
  induction cs generalizing i with
  | nil => simp at hi
  | cons c rest ih =>
    cases i with
    | zero =>
      simp only [List.getD_cons_zero] at hok
      simp [selectFirstFit, hok]
    | succ i =>
      have hc : ok c = false := by
        have := hfirst 0 (Nat.succ_pos i)
        simpa using this
      simp only [List.getD_cons_succ] at hok
      have hlen : i < rest.length := by simpa using hi
      have hrest := ih i hlen
        (fun j hj => by
          have := hfirst (j + 1) (by omega)
          simpa using this)
        hok
      simp only [selectFirstFit, hc, Bool.false_eq_true, if_false,
        List.getD_cons_succ, List.take_succ_cons]
      exact ⟨hrest.1, by rw [hrest.2]⟩

/-- Claim C3, witness: for ring dimension 1024 with a backend accepting
exactly plaintext modulus 40961, the first success sits at index 2
(coefficient shape `[27, 27]`, third plaintext modulus); the selector
returns it and attempts only the first three candidates. -/
theorem selector_first_fit_witness :
    (selectFirstFit (fun c => c.plainMod == 40961) (candidates 1024)).2 =
        some ((candidates 1024).getD 2 ⟨[], 0⟩) ∧
      (selectFirstFit (fun c => c.plainMod == 40961) (candidates 1024)).1 =
        (candidates 1024).take 3 :=
  selector_first_fit (fun c => c.plainMod == 40961) (candidates 1024) 2
    (by decide) (by decide) (by decide)

/-- Chunk count of the large-vector paths: `size_t num_ciphertexts =
(vector_size + slot_count - 1) / slot_count;` (same.cpp line 245) and
`long chunks = (vec_size + nslots - 1) / nslots;` (HElib different.cpp
line 95). -/
def numChunks (vec_size nslots : Nat) : Nat := (vec_size + nslots - 1) / nslots

/-- Per-chunk element validation of the HElib driver (different.cpp lines
152-167): only the first `min 3 chunk_size` elements of the decrypted
chunk are compared against the plaintext expectation. -/
def chunkElemsOk (expected decrypted : Nat → Int) (chunk_size : Nat) : Bool :=
  (List.range (min 3 chunk_size)).all fun i => decrypted i == expected i

/-- The validation part of the chunk loop of HElib `different.cpp` lines
105-168: the loop body decrypts and validates only when `chunk == 0`
(line 147), so `validation_passed` depends on chunk 0's check alone.
`ok c` is chunk `c`'s own validation outcome. -/
def validationLoop (ok : Nat → Bool) : Nat → Bool
  | 0 => true
  | c + 1 => validationLoop ok c && (if c = 0 then ok 0 else true)

/-- Modelled from the spec (refinement comparison only): "correctness is
evaluated per chunk against its own oracle instance" — validation of every
chunk, the behaviour the claim attributes to the code. -/
def validationEveryChunkSpec (ok : Nat → Bool) (chunks : Nat) : Bool :=
  (List.range chunks).all ok

/-- The timing accumulation of the chunk loop (`total_operation_time +=`,
same.cpp line 283): after `c` chunks the sum of the first `c` per-chunk
timings. -/
def totalOpTime (times : Nat → ℚ) : Nat → ℚ
  | 0 => 0
  | c + 1 => totalOpTime times c + times c

/-- The reported per-chunk operation time (same.cpp lines 294-297):
the accumulated total divided by `num_ciphertexts`. -/
def reportedOpTime (times : Nat → ℚ) (vec_size nslots : Nat) : ℚ :=
  totalOpTime times (numChunks vec_size nslots) / (numChunks vec_size nslots : ℚ)

/-- Arithmetic mean of a list of timings, as the spec words it. -/
def arithMean (l : List ℚ) : ℚ := l.sum / (l.length : ℚ)

/-- The HElib large-vector logging (different.cpp line 171): `logResult`
receives the raw accumulated total `total_op` — no division by the chunk
count takes place in that driver. -/
def helibLoggedOpTime (times : Nat → ℚ) (chunks : Nat) : ℚ :=
  totalOpTime times chunks

/-- The HElib decryption-time accumulation (different.cpp lines 146-151):
`total_dec` accrues only inside the `if (chunk == 0)` guard, so only the
first chunk's decryption time is ever added before it is logged. -/
def helibTotalDecTime (decTimes : Nat → ℚ) : Nat → ℚ
  | 0 => 0
  | c + 1 => helibTotalDecTime decTimes c + (if c = 0 then decTimes 0 else 0)

theorem totalOpTime_eq_sum (times : Nat → ℚ) :
    ∀ c, totalOpTime times c = ((List.range c).map times).sum := by
  intro c
  induction c with
  | zero => simp [totalOpTime]
  | succ c ih => simp [totalOpTime, List.range_succ, ih]

theorem validationLoop_eq_firstChunk (ok : Nat → Bool) :
    ∀ chunks, 0 < chunks → validationLoop ok chunks = ok 0 := by
  intro chunks
  induction chunks with
  | zero => omega
  | succ c ih =>
    intro _
    cases c with
    | zero => simp [validationLoop]
    | succ c2 =>
      simp only [validationLoop, if_neg (Nat.succ_ne_zero c2), Bool.and_true]
      exact ih (Nat.succ_pos c2)

theorem helibTotalDecTime_eq_firstChunk (decTimes : Nat → ℚ) :
    ∀ chunks, 0 < chunks → helibTotalDecTime decTimes chunks = decTimes 0 := by
  intro chunks
  induction chunks with
  | zero => omega
  | succ c ih =>
    intro _
    cases c with
    | zero => simp [helibTotalDecTime]
    | succ c2 =>
      simp only [helibTotalDecTime, if_neg (Nat.succ_ne_zero c2), add_zero]
      exact ih (Nat.succ_pos c2)

/-- Claim C5, counterexample.  With two chunks where chunk 1's own check
fails, the code's validation still reports success, because only chunk 0
is ever validated — contradicting the claim that correctness is evaluated
for every chunk against that chunk's own oracle (the spec-worded
`validationEveryChunkSpec` would report failure). -/
theorem chunk_validation_first_chunk_only_cex :
    validationLoop (fun c => c == 0) 2 = true ∧
      validationEveryChunkSpec (fun c => c == 0) 2 = false := by decide

/-- Claim C5, amended.  The large-vector path processes exactly
`ceil(vector_size / slot_count)` chunks (`numChunks` is the least chunk
count covering the vector).  The SEAL driver reports the arithmetic mean
of the per-chunk operation timings (accumulated total divided by the
chunk count); the HElib driver logs the raw accumulated total instead —
the chunk count times that mean, with no division — and its decryption
total accrues only chunk 0's time.  Correctness is validated only for the
first chunk: `validation_passed` equals chunk 0's own check, whatever the
later chunks decrypt to. -/
theorem chunking_mean_and_first_chunk_validation
    (v n chunks : Nat) (ok : Nat → Bool) (times decTimes : Nat → ℚ)
    (hn : 0 < n) (hc : 0 < chunks) :
    (v ≤ n * numChunks v n ∧ n * numChunks v n < v + n) ∧
      reportedOpTime times v n =
        arithMean ((List.range (numChunks v n)).map times) ∧
      helibLoggedOpTime times chunks =
        (chunks : ℚ) * arithMean ((List.range chunks).map times) ∧
      helibTotalDecTime decTimes chunks = decTimes 0 ∧
      validationLoop ok chunks = ok 0 := by
  refine ⟨?_, ?_, ?_, helibTotalDecTime_eq_firstChunk decTimes chunks hc,
    validationLoop_eq_firstChunk ok chunks hc⟩
  · unfold numChunks
    have hdm := Nat.div_add_mod (v + n - 1) n
    have hml : (v + n - 1) % n < n := Nat.mod_lt _ hn
    generalize hq : (v + n - 1) / n = q at hdm
    generalize hr : (v + n - 1) % n = r at hdm hml
    have hnq : n * q + r = v + n - 1 := hdm
    rcases Nat.eq_zero_or_pos v with hv | hv
    · subst hv
      have hq0 : q = 0 := by
        by_contra hq0
        have h1 : 1 ≤ q := Nat.one_le_iff_ne_zero.2 hq0
        have : n * 1 ≤ n * q := Nat.mul_le_mul_left n h1
        omega
      simp [hq0]
      omega
    · generalize hm : n * q = m at hnq ⊢
      omega
  · rw [reportedOpTime, arithMean, totalOpTime_eq_sum,
      List.length_map, List.length_range]
  · unfold helibLoggedOpTime arithMean
    rw [totalOpTime_eq_sum, List.length_map, List.length_range]
    have hch : (chunks : ℚ) ≠ 0 := Nat.cast_ne_zero.2 (by omega)
    field_simp

/-- Claim C5, witness: scenario D — vector size 100000 over 8192 slots
gives 13 chunks; evaluated with an always-true chunk check and constant
timings. -/
theorem chunking_mean_and_first_chunk_validation_witness :
    ((100000 ≤ 8192 * numChunks 100000 8192 ∧
        8192 * numChunks 100000 8192 < 100000 + 8192) ∧
      reportedOpTime (fun _ => (1 : ℚ)) 100000 8192 =
        arithMean ((List.range (numChunks 100000 8192)).map (fun _ => (1 : ℚ))) ∧
      helibLoggedOpTime (fun _ => (1 : ℚ)) 13 =
        (((13 : Nat)) : ℚ) * arithMean ((List.range 13).map (fun _ => (1 : ℚ))) ∧
      helibTotalDecTime (fun _ => (2 : ℚ)) 13 = (fun _ => (2 : ℚ)) 0 ∧
      validationLoop (fun _ => true) 13 = (fun _ => true) 0) ∧
    numChunks 100000 8192 = 13 :=
  ⟨chunking_mean_and_first_chunk_validation 100000 8192 13 (fun _ => true)
      (fun _ => (1 : ℚ)) (fun _ => (2 : ℚ)) (by decide) (by decide),
   by decide⟩

/-- The noise-budget probe loop of `experiment_ct_plus_ct_for_degree`
(noise_cipher+cipher.cpp lines 66-92) with the nested
for-over-targets/while-to-target structure flattened to a single count
that rises one operation at a time to the largest target: after each
applied operation the backend noise budget is read, and a non-positive
budget makes the function log the current `operation_count` and return.
`noise k` is the backend budget after `k` operations; `some K` records an
exhaustion report at count `K`, `none` a run that completed all targets.
The first operation (count 1) is applied and logged before the loop and
never checked. -/
def noiseProbe (noise : Nat → Int) (maxTarget : Nat) : Nat → Nat → Option Nat
  | 0, _ => none
  | fuel + 1, count =>
    if count < maxTarget then
      if noise (count + 1) ≤ 0 then some (count + 1)
      else noiseProbe noise maxTarget fuel (count + 1)
    else none

/-- The additive noise experiment for poly degrees up to 4096: targets
rise to 4096, the count starts at 1. -/
def noiseReport (noise : Nat → Int) : Option Nat :=
  noiseProbe noise 4096 4096 1

theorem noiseProbe_firstExhaust (noise : Nat → Int) (maxTarget : Nat) :
    ∀ fuel count K, count < K → K ≤ maxTarget → K ≤ count + fuel →
      (∀ k, count < k → k < K → 0 < noise k) → noise K ≤ 0 →
      noiseProbe noise maxTarget fuel count = some K := by
  intro fuel
  induction fuel with
  | zero => intro count K h1 _ h3 _ _; omega
  | succ fuel ih =>
    intro count K h1 h2 h3 hsafe hex
    have hlt : count < maxTarget := by omega
    by_cases hK : count + 1 = K
    · rw [noiseProbe, if_pos hlt, if_pos (hK ▸ hex)]
      exact congrArg some hK
    · have hpos : 0 < noise (count + 1) := hsafe (count + 1) (by omega) (by omega)
      rw [noiseProbe, if_pos hlt, if_neg (by omega)]
      exact ih (count + 1) K (by omega) h2 (by omega)
        (fun k hk1 hk2 => hsafe k (by omega) hk2) hex

/-- Claim C6, counterexample.  With a backend whose noise budget first
becomes non-positive after operation 2, the experiment reports exhaustion
at count 2 — the operation count at which exhaustion was observed — not at
`2 - 1 = 1`, the last known-safe depth the claim says it reports. -/
theorem noise_reports_observation_count_cex :
    noiseReport (fun k => 2 - (k : Int)) = some 2 ∧
      ¬ noiseReport (fun k => 2 - (k : Int)) = some (2 - 1) := by decide

/-- Claim C6, amended.  When the backend noise budget first reports a
non-positive value at operation count `K`, the experiment stops and logs
`K` itself — the count at which exhaustion was observed — not `K - 1`. -/
theorem noise_reports_observation_count (noise : Nat → Int) (K : Nat)
    (h1 : 1 < K) (h2 : K ≤ 4096)
    (hsafe : ∀ k, 1 < k → k < K → 0 < noise k) (hex : noise K ≤ 0) :
    noiseReport noise = some K :=
  noiseProbe_firstExhaust noise 4096 4096 1 K h1 h2 (by omega) hsafe hex

/-- Claim C6, witness: a linearly decaying budget that hits zero after the
third operation makes the experiment report count 3. -/
theorem noise_reports_observation_count_witness :
    noiseReport (fun k => 3 - (k : Int)) = some 3 :=
  noise_reports_observation_count (fun k => 3 - (k : Int)) 3
    (by decide) (by decide)
    (by intro k hk1 hk2
        have hk : k = 2 := by omega
        subst hk
        norm_num)
    (by norm_num)

/-- One row of the output CSV of `run_experiment`
(depth_cipher+cipher.cpp lines 124-149). -/
structure CsvRow where
  degree : Nat
  maxOps : Nat
  setupFailed : Bool
deriving DecidableEq

/-- Per-configuration processing of `run_experiment`: the whole body for
one poly degree sits in a `try` block; a successful run writes the
measured `max_operations`, any backend fault is caught at the
configuration boundary and converted to a zero-depth error row.
`outcome d` is the backend's behaviour for degree `d`. -/
def processConfig (outcome : Nat → Except Nat Nat) (d : Nat) : CsvRow :=
  match outcome d with
  | .ok m => ⟨d, m, false⟩
  | .error _ => ⟨d, 0, true⟩

/-- The configuration grid loop of `run_experiment` (lines 127-149): every
degree in the list is processed, each inside its own try/catch, and a row
is emitted for each. -/
def runGrid (outcome : Nat → Except Nat Nat) : List Nat → List CsvRow
  | [] => []
  | d :: rest => processConfig outcome d :: runGrid outcome rest

theorem runGrid_getD (outcome : Nat → Except Nat Nat) :
    ∀ ds j, j < ds.length →
      (runGrid outcome ds).getD j ⟨0, 0, false⟩ =
        processConfig outcome (ds.getD j 0) := by
  intro ds
  induction ds with
  | nil => intro j hj; simp at hj
  | cons d rest ih =>
    intro j hj
    cases j with
    | zero => simp [runGrid]
    | succ j =>
      simp only [runGrid, List.getD_cons_succ]
      exact ih j (by simpa using hj)

theorem runGrid_length (outcome : Nat → Except Nat Nat) :
    ∀ ds, (runGrid outcome ds).length = ds.length := by
  intro ds
  induction ds with
  | nil => rfl
  | cons d rest ih => simp [runGrid, ih]

/-- Claim C7.  A backend fault on configuration `j` is caught at that
configuration's boundary and converted to a zero-depth failure row, and a
row is still emitted for every configuration — in particular configuration
`j + 1` produces exactly the row its own outcome determines, untouched by
the fault at `j`. -/
theorem grid_isolates_per_config_faults (outcome : Nat → Except Nat Nat)
    (ds : List Nat) (j e : Nat)
    (hj : j + 1 < ds.length) (hfail : outcome (ds.getD j 0) = .error e) :
    (runGrid outcome ds).length = ds.length ∧
      (runGrid outcome ds).getD j ⟨0, 0, false⟩ = ⟨ds.getD j 0, 0, true⟩ ∧
      (runGrid outcome ds).getD (j + 1) ⟨0, 0, false⟩ =
        processConfig outcome (ds.getD (j + 1) 0) := by
  refine ⟨runGrid_length outcome ds, ?_, runGrid_getD outcome ds (j + 1) hj⟩
  rw [runGrid_getD outcome ds j (by omega), processConfig, hfail]

/-- Claim C7, witness: degree 1024 faults, yet the grid emits its
zero-depth error row and the row for degree 2048 is produced from its own
outcome. -/
theorem grid_isolates_per_config_faults_witness :
    (runGrid (fun d => if d = 1024 then .error 7 else .ok 5) [1024, 2048]).length
        = ([1024, 2048] : List Nat).length ∧
      (runGrid (fun d => if d = 1024 then .error 7 else .ok 5)
          [1024, 2048]).getD 0 ⟨0, 0, false⟩ =
        ⟨([1024, 2048] : List Nat).getD 0 0, 0, true⟩ ∧
      (runGrid (fun d => if d = 1024 then .error 7 else .ok 5)
          [1024, 2048]).getD 1 ⟨0, 0, false⟩ =
        processConfig (fun d => if d = 1024 then .error 7 else .ok 5)
          (([1024, 2048] : List Nat).getD 1 0) :=
  grid_isolates_per_config_faults (fun d => if d = 1024 then .error 7 else .ok 5)
    [1024, 2048] 0 7 (by decide) (by rfl)

/-- The four operation keys recognized by `test_operation_single`
(same.cpp lines 217-228, different.cpp lines 115-127). -/
def opNames : List String :=
  ["CIPHER_ADD_CIPHER", "CIPHER_ADD_PLAIN", "CIPHER_MUL_PLAIN", "CIPHER_MUL_CIPHER"]

/-- The operation selected by the if/else-if chain on `operation_type`;
`none` when no branch matches. -/
inductive HEOpKind
  | addCipher
  | addPlain
  | mulPlain
  | mulCipher
deriving DecidableEq

/-- String-keyed dispatch of `test_operation_single`: the exact if/else-if
chain of the source. -/
def dispatchOp (s : String) : Option HEOpKind :=
  if s = "CIPHER_ADD_CIPHER" then some .addCipher
  else if s = "CIPHER_ADD_PLAIN" then some .addPlain
  else if s = "CIPHER_MUL_PLAIN" then some .mulPlain
  else if s = "CIPHER_MUL_CIPHER" then some .mulCipher
  else none

/-- Outcome of one `test_operation_single` call: the result ciphertext
content (`none` models the default-constructed `Ciphertext result;` that no
branch ever assigned) and whether the timing row was logged.  The slot
value of the input ciphertext is `c`, of the plaintext `p`; decryption and
`log_operation` follow unconditionally after the dispatch chain. -/
def test_operation_single (s : String) (c p : Nat) : Option Nat × Bool :=
  let result : Option Nat :=
    match dispatchOp s with
    | some .addCipher => some (c + c)
    | some .addPlain => some (c + p)
    | some .mulPlain => some (c * p)
    | some .mulCipher => some (c * c)
    | none => none
  (result, true)

/-- Claim C10.  The dispatch recognizes exactly the four operation keys,
and for any other string no homomorphic operation is applied — the result
stays the default-constructed empty ciphertext — yet that empty result is
still the one passed to decryption and its timings are still logged. -/
theorem dispatch_recognizes_exactly_four (s : String) (c p : Nat) :
    ((dispatchOp s).isSome = true ↔ s ∈ opNames) ∧
      (s ∉ opNames →
        test_operation_single s c p = (none, true)) := by
  constructor
  · unfold dispatchOp opNames
    split_ifs with h1 h2 h3 h4 <;> simp_all
  · intro hs
    have h1 : ¬ s = "CIPHER_ADD_CIPHER" := fun h => hs (by simp [opNames, h])
    have h2 : ¬ s = "CIPHER_ADD_PLAIN" := fun h => hs (by simp [opNames, h])
    have h3 : ¬ s = "CIPHER_MUL_PLAIN" := fun h => hs (by simp [opNames, h])
    have h4 : ¬ s = "CIPHER_MUL_CIPHER" := fun h => hs (by simp [opNames, h])
    simp [test_operation_single, dispatchOp, h1, h2, h3, h4]

/-- Claim C10, witness: the unrecognized key leaves the result empty while
the row is still logged, and the membership characterization holds at that
key. -/
theorem dispatch_recognizes_exactly_four_witness :
    ((dispatchOp ("CIPHER_SUB_CIPHER")).isSome = true ↔
        ("CIPHER_SUB_CIPHER" : String) ∈ opNames) ∧
      (("CIPHER_SUB_CIPHER" : String) ∉ opNames →
        test_operation_single ("CIPHER_SUB_CIPHER") 42 42 = (none, true)) :=
  dispatch_recognizes_exactly_four ("CIPHER_SUB_CIPHER") 42 42
